import Mathlib

/-!
Verification of the retrieval-augmented query pipeline of the orin-langchain
repository against its natural-language specification.

The development shallowly embeds the relevant Python modules:
  - `app/agents/tools.py`   : the module-global RAG-source collector and the
    document-search tool's source tracking,
  - `app/agents/orin_agent.py` : source formatting, legacy citation parsing,
    response cleaning and the top-level query flow,
  - `app/rag/retriever.py`  : filter construction for metadata-filtered search,
  - `app/rag/vectorstore.py` : ingestion entry points and their fallback
    behavior when the index backend is unavailable.

External collaborators (the Pinecone index, the langchain loaders and splitter,
the generative model) are modelled as explicit parameters; Python strings are
Lean `String`s, Python `None`-able strings are `Option String`, and Python
dicts of string metadata are association lists.
-/

set_option maxRecDepth 8192

/-- Python truthiness of an optional string: `None` and the empty string are
falsy, every other string is truthy. -/
def pyTruthy : Option String → Bool
  | none => false
  | some s => !(s == "")

/-- A Python string-valued metadata dict, as an association list. -/
abbrev Metadata := List (String × String)

/-- `dict.get(key)`: the value at `key`, if present. -/
def mget (md : Metadata) (k : String) : Option String :=
  (md.find? (fun kv => kv.1 == k)).map (fun kv => kv.2)

/-- A langchain `Document`: page content plus metadata. -/
structure Doc where
  page_content : String
  metadata : Metadata
deriving DecidableEq, Repr

/-- Modelled from the spec: the Index Store's metadata filter contract (§4.3,
§6) — the store "must return only chunks satisfying every constraint", each
present key an exact match on the metadata key of the filter entry. The store
itself (Pinecone) is not part of the repository. -/
def satisfiesFilter (filter_dict : Metadata) (md : Metadata) : Bool :=
  filter_dict.all (fun kv => mget md kv.1 == some kv.2)

/-- `VectorStore.similarity_search` (vectorstore.py): when the store is
uninitialized it returns `[]`; otherwise it forwards the query with the filter
to the index. The store's ranked corpus for the query is modelled as the list
`store` (ranking is external); the filter and the `k` cut are applied as the
index contract demands. -/
def VectorStore.similarity_search (store : Option (List Doc)) (k : Nat)
    (filter_dict : Option Metadata) : List Doc :=
  match store with
  | none => []
  | some docs =>
      (match filter_dict with
       | none => docs
       | some fd => docs.filter (fun d => satisfiesFilter fd d.metadata)).take k

/-- `DocumentManager.search_documents` (retriever.py): builds the filter dict
from the truthy arguments — note the `document_type` argument is stored under
the filter key `"type"` — and runs the similarity search. -/
def DocumentManager.search_documents (store : Option (List Doc)) (k : Nat)
    (document_type department user_id : Option String) : List Doc :=
  let filter_dict : Metadata :=
    (if pyTruthy document_type then [("type", document_type.getD "")] else [])
      ++ (if pyTruthy department then [("department", department.getD "")] else [])
      ++ (if pyTruthy user_id then [("user_id", user_id.getD "")] else [])
  VectorStore.similarity_search store k
    (if filter_dict.isEmpty then none else some filter_dict)

/-- A source dict built by the `search_documents` tool (tools.py lines 87–93):
the four citation fields plus the raw chunk metadata payload. -/
structure SourceDetail where
  filename : Option String
  document_type : Option String
  department : Option String
  source : Option String
  metadata : Metadata
deriving DecidableEq, Repr

/-- The dedup key used by the tool's per-call filtering (tools.py 104–109). -/
abbrev Key4 := Option String × Option String × Option String × Option String

def dedupKey (d : SourceDetail) : Key4 :=
  (d.filename, d.document_type, d.department, d.source)

/-- `_append_rag_sources` (tools.py 20–28): appends each new source that is not
already present in the collector, where presence is full dict equality. -/
def append_rag_sources (new_sources : List SourceDetail)
    (st : List SourceDetail) : List SourceDetail :=
  new_sources.foldl (fun acc s => if s ∈ acc then acc else acc ++ [s]) st

/-- The per-call dedup loop of the `search_documents` tool (tools.py 99–113):
keeps a source only if its filename is truthy and its 4-tuple key was not
already seen in this call, in first-seen order. -/
def uniqueSources : List SourceDetail → List Key4 → List SourceDetail
  | [], _ => []
  | d :: rest, seen =>
    if !(pyTruthy d.filename) || dedupKey d ∈ seen then
      uniqueSources rest seen
    else
      d :: uniqueSources rest (dedupKey d :: seen)

/-- One `record` call of the Provenance Tracker as the source implements it
(tools.py 97–117): per-call key dedup followed by `_append_rag_sources`. -/
def track_sources (source_details : List SourceDetail)
    (st : List SourceDetail) : List SourceDetail :=
  append_rag_sources (uniqueSources source_details []) st

/-- `get_and_clear_rag_sources` (tools.py 31–36): returns the collected list
and the emptied collector state. -/
def get_and_clear_rag_sources (st : List SourceDetail) :
    List SourceDetail × List SourceDetail :=
  (st, [])

/-- `reset_rag_sources` (tools.py 39–42): empties the collector state. -/
def reset_rag_sources (st : List SourceDetail) : List SourceDetail :=
  match st with
  | _ => []

/-- One scope operation a request performs on the source collector. -/
inductive ScopeOp where
  | reset
  | record (batch : List SourceDetail)
  | drain
deriving DecidableEq, Repr

/-- Interleaved execution of requests' scope operations against the single
module-global `_rag_sources` collector of tools.py: every request's
`reset`/`record`/`drain` acts on the same shared state (there is one
`_rag_sources` list per process, not per request). Returns each drain's
result, tagged with the id of the request that drained. -/
def runShared : List (Nat × ScopeOp) → List SourceDetail →
    List (Nat × List SourceDetail)
  | [], _ => []
  | (rid, op) :: rest, st =>
    match op with
    | ScopeOp.reset => runShared rest (reset_rag_sources st)
    | ScopeOp.record b => runShared rest (track_sources b st)
    | ScopeOp.drain =>
        let out := get_and_clear_rag_sources st
        (rid, out.1) :: runShared rest out.2

/-! ### Python string helpers over character lists

Python string operations are character-based; they are embedded here over
`List Char` (a Lean `String`'s character data). -/

/-- Python's whitespace set for `str.strip()`. -/
def isSpaceChar (c : Char) : Bool :=
  c == ' ' || c == '\t' || c == '\n' || c == '\r' || c == Char.ofNat 11 || c == Char.ofNat 12

/-- `str.strip()`: drop whitespace from both ends. -/
def trimChars (l : List Char) : List Char :=
  ((l.dropWhile isSpaceChar).reverse.dropWhile isSpaceChar).reverse

/-- First occurrence of `marker` in a character list: `some (before, after)`
splits around the first occurrence, `none` when the marker does not occur. -/
def findSplit (marker : List Char) : List Char → Option (List Char × List Char)
  | [] => if marker.isEmpty then some ([], []) else none
  | c :: rest =>
    if marker.isPrefixOf (c :: rest) then some ([], (c :: rest).drop marker.length)
    else
      match findSplit marker rest with
      | none => none
      | some (b, a) => some (c :: b, a)

/-- `text.split(sep)[0]` for the segment before the first occurrence of `sep`
(`text` itself when `sep` does not occur). -/
def segBefore (marker l : List Char) : List Char :=
  match findSplit marker l with
  | none => l
  | some (b, _) => b

/-- `str.split('\n')`. -/
def splitNewlines : List Char → List Char → List (List Char)
  | [], acc => [acc.reverse]
  | c :: rest, acc =>
    if c == '\n' then acc.reverse :: splitNewlines rest []
    else splitNewlines rest (c :: acc)

/-- The legacy citation marker of orin_agent.py. -/
def sourcesMarker : List Char := "--- SOURCES ---".data

/-- The line loop of `ORINAgent._extract_sources` (orin_agent.py 212–222):
bullet lines contribute their trimmed tail; a non-empty non-bullet line after
at least one collected source stops the loop. -/
def extractLines : List (List Char) → List String → List String
  | [], acc => acc
  | line :: rest, acc =>
    match trimChars line with
    | '•' :: tail =>
        let src := trimChars tail
        extractLines rest (if src.isEmpty then acc else acc ++ [String.mk src])
    | l =>
        if !l.isEmpty && !acc.isEmpty then acc
        else extractLines rest acc

/-- `ORINAgent._extract_sources` (orin_agent.py 206–225): when the legacy
marker occurs, parse the section between the first and second occurrence into
bullet source names. -/
def extract_sources (response_text : String) : List String :=
  match findSplit sourcesMarker response_text.data with
  | none => []
  | some (_, after) =>
      let sources_section := trimChars (segBefore sourcesMarker after)
      extractLines (splitNewlines sources_section []) []

/-- `ORINAgent._clean_response` (orin_agent.py 227–231): text before the legacy
marker, stripped; the whole text stripped when no marker occurs. -/
def clean_response (response_text : String) : String :=
  match findSplit sourcesMarker response_text.data with
  | none => String.mk (trimChars response_text.data)
  | some (b, _) => String.mk (trimChars b)

/-! ### Source formatting (`ORINAgent._format_sources`) -/

/-- An entry of the source list handed back to the caller
(orin_agent.py 181–186): the four citation fields. -/
structure FormattedSource where
  filename : String
  document_type : Option String
  department : Option String
  source : Option String
deriving DecidableEq, Repr

/-- The dedup key used inside `_format_sources`. -/
abbrev SKey := String × Option String × Option String × Option String

/-- `filename = source.get("filename") or source.get("source") or "Unknown source"`. -/
def fmtFilename (s : SourceDetail) : String :=
  if pyTruthy s.filename then s.filename.getD ""
  else if pyTruthy s.source then s.source.getD ""
  else "Unknown source"

def fKey (s : SourceDetail) : SKey :=
  (fmtFilename s, s.document_type, s.department, s.source)

def projFmt (s : SourceDetail) : FormattedSource :=
  ⟨fmtFilename s, s.document_type, s.department, s.source⟩

def formatKey (f : FormattedSource) : SKey :=
  (f.filename, f.document_type, f.department, f.source)

/-- Specification-side first-seen deduplication (spec §3/§8): keep each dedup
key's first occurrence and delete every later occurrence of that key, leaving
order otherwise untouched. Stated independently of the code's seen-set loops
so that equality with it pins the formatter's output completely. -/
def firstSeenKeyDedup : List FormattedSource → List FormattedSource
  | [] => []
  | f :: rest =>
      f :: firstSeenKeyDedup (rest.filter (fun g => !(formatKey g == formatKey f)))
termination_by l => l.length
decreasing_by
  simp_wf
  exact Nat.lt_succ_of_le (List.length_filter_le _ _)

/-- The structured-source loop of `_format_sources` (orin_agent.py 171–186):
skip entries whose key was seen or whose display filename is the
`"Unknown source"` sentinel; returns the kept entries and the final seen set. -/
def formatLoop : List SourceDetail → List SKey → List FormattedSource × List SKey
  | [], seen => ([], seen)
  | s :: rest, seen =>
    if fKey s ∈ seen || fmtFilename s == "Unknown source" then
      formatLoop rest seen
    else
      let next := formatLoop rest (fKey s :: seen)
      (projFmt s :: next.1, next.2)

/-- The legacy-fallback loop of `_format_sources` (orin_agent.py 192–203):
each parsed entry becomes a filename-only record, key-deduplicated. -/
def legacyLoop : List String → List SKey → List FormattedSource
  | [], _ => []
  | e :: rest, seen =>
    if ((e, none, none, none) : SKey) ∈ seen then legacyLoop rest seen
    else ⟨e, none, none, none⟩ :: legacyLoop rest ((e, none, none, none) :: seen)

/-- `ORINAgent._format_sources` (orin_agent.py 165–204): prefer the structured
sources collected during tool execution; only when that list comes out empty,
fall back to parsing the legacy marker block of the answer text. -/
def format_sources (rag_sources : List SourceDetail) (response_text : String) :
    List FormattedSource :=
  let structured := formatLoop rag_sources []
  if !structured.1.isEmpty then structured.1
  else structured.1 ++ legacyLoop (extract_sources response_text) structured.2

/-! ### Top-level query flow (`ORINAgent.query`) -/

/-- Outcome of the best-effort chat-history write
(`document_manager.add_chat_history`): success, or a raised exception. -/
inductive WriteOutcome where
  | ok
  | failed (msg : String)
deriving DecidableEq, Repr

/-- The response dict built by `ORINAgent.query`. -/
structure QueryResponse where
  response : String
  sources : List FormattedSource
  success : Bool
  tools_used : List String
deriving DecidableEq, Repr

/-- `ORINAgent.query` (orin_agent.py 99–150). `agentResult` models
`agent_executor.invoke`: either the output text together with the tool names
of the intermediate steps (`_extract_tools_used`), or a raised exception.
`rag_sources` is the collector content accumulated by the tool calls of this
invocation (the collector is reset before the invoke). The second component
of the result records whether a chat-history write was attempted; the write's
own outcome is caught and ignored (orin_agent.py 130–132). -/
def ORINAgent.query (user_id : Option String)
    (agentResult : Except String (String × List String))
    (rag_sources : List SourceDetail)
    (historyWrite : WriteOutcome) : QueryResponse × Bool :=
  match agentResult with
  | Except.error e =>
      ({ response := "I apologize, but I encountered an error while processing your request: " ++ e,
         sources := [], success := false, tools_used := [] }, false)
  | Except.ok (response_text, steps) =>
      let sources := format_sources rag_sources response_text
      let clean := clean_response response_text
      let attempted := pyTruthy user_id
      let ignored := match historyWrite with
        | WriteOutcome.ok => ()
        | WriteOutcome.failed _ => ()
      let _ := ignored
      ({ response := clean, sources := sources, success := true,
         tools_used := steps }, attempted)

/-! ### Ingestion (`VectorStore.add_documents`, `VectorStore.load_and_add_file`) -/

/-- The external index backend (Pinecone via langchain): chunk splitting and
the store's own document-add returning store-assigned identifiers. -/
structure IndexBackend where
  split_documents : List Doc → List Doc
  add : List Doc → List String

/-- Python `dict[k] = v` on an association-list metadata dict. -/
def dictSet (md : Metadata) (k v : String) : Metadata :=
  if (md.find? (fun kv => kv.1 == k)).isSome then
    md.map (fun kv => if kv.1 == k then (k, v) else kv)
  else md ++ [(k, v)]

/-- Python `dict.update`. -/
def dictUpdate (base upd : Metadata) : Metadata :=
  upd.foldl (fun acc kv => dictSet acc kv.1 kv.2) base

/-- `VectorStore.add_documents` (vectorstore.py 76–97): when the backend is
uninitialized (`self.vectorstore` is `None`) it fabricates `mock_id_i`
identifiers instead of failing; otherwise it merges the metadata, splits and
hands the chunks to the store. -/
def VectorStore.add_documents (backend : Option IndexBackend)
    (documents : List Doc) (metadata : Option Metadata) : List String :=
  match backend with
  | none => (List.range documents.length).map (fun i => "mock_id_" ++ toString i)
  | some b =>
      let docs := match metadata with
        | none => documents
        | some md => documents.map (fun d => { d with metadata := dictUpdate d.metadata md })
      b.add (b.split_documents docs)

/-- The external format loaders (PyPDFLoader, TextLoader, Docx2txtLoader):
`load` may raise, modelled as `Except`. -/
structure LoaderEnv where
  pdf : String → Except String (List Doc)
  txt : String → Except String (List Doc)
  docx : String → Except String (List Doc)

/-- Python `path.endswith(suf)`, character-based. -/
def pyEndsWith (s suf : String) : Bool :=
  suf.data.isSuffixOf s.data

/-- `VectorStore.load_and_add_file` (vectorstore.py 127–155): extension
dispatch to a loader (`.doc` also goes to the docx loader), a `ValueError` for
any other extension — but every exception of the body is caught and turned
into a fabricated one-element `error_mock_id_{hash(file_path)}` identifier
list, "so the upload doesn't completely fail". `pyHash` models Python's
opaque `hash`. -/
def VectorStore.load_and_add_file (backend : Option IndexBackend)
    (env : LoaderEnv) (pyHash : String → Int) (file_path : String)
    (metadata : Option Metadata) : List String :=
  let loaded : Except String (List Doc) :=
    if pyEndsWith file_path ".pdf" then env.pdf file_path
    else if pyEndsWith file_path ".txt" then env.txt file_path
    else if pyEndsWith file_path ".docx" then env.docx file_path
    else if pyEndsWith file_path ".doc" then env.docx file_path
    else Except.error ("Unsupported file type: " ++ file_path)
  match loaded with
  | Except.error _ => ["error_mock_id_" ++ toString (pyHash file_path)]
  | Except.ok documents => VectorStore.add_documents backend documents metadata

/-! ### Tool orchestrator (spec §4.5)

Modelled from the spec: the bounded think/act loop of §4.5 is executed by the
external langchain `AgentExecutor`, which is not part of this repository; the
repository only configures it (`orin_agent.py` 90–97: `max_iterations=3`) and
reads its outputs. The loop below follows §4.5: each `Thinking` step gives the
model the running conversation; a requested tool call is dispatched, its
string result appended, and the iteration counter incremented; the loop stops
on a final answer or when the counter reaches the cap, then forcing
termination with the executor's stop message as the partial answer. -/

/-- One decision of the generative model: a final answer or a tool call. -/
inductive ModelStep where
  | finalAnswer (text : String)
  | toolCall (name : String)
deriving Repr

def ModelStep.isToolCall : ModelStep → Bool
  | ModelStep.finalAnswer _ => false
  | ModelStep.toolCall _ => true

/-- The result of one orchestration run: the answer text and the dispatched
tool names, in dispatch order. -/
structure OrchestratorResult where
  answer : String
  tools_used : List String
deriving DecidableEq, Repr

/-- The executor's forced-stop partial answer. -/
def stopMessage : String := "Agent stopped due to iteration limit or time limit."

/-- The loop body, structured by the remaining iteration budget
(`remaining = cap - counter`); also returns the final iteration counter. -/
def orchestratorGo (model : List String → ModelStep) (dispatch : String → String) :
    Nat → Nat → List String → List String → OrchestratorResult × Nat
  | 0, iter, _, used => ({ answer := stopMessage, tools_used := used }, iter)
  | remaining + 1, iter, convo, used =>
    match model convo with
    | ModelStep.finalAnswer t => ({ answer := t, tools_used := used }, iter)
    | ModelStep.toolCall name =>
        orchestratorGo model dispatch remaining (iter + 1)
          (convo ++ [dispatch name]) (used ++ [name])

/-- One orchestration run with iteration cap `cap`, starting from the user's
input as the conversation. -/
def runOrchestrator (model : List String → ModelStep) (dispatch : String → String)
    (cap : Nat) (user_input : String) : OrchestratorResult × Nat :=
  orchestratorGo model dispatch cap 0 [user_input] []

/-! ### Concrete sample data used by counterexamples and witnesses -/

/-- A source record of request A. -/
def recA : SourceDetail := ⟨some "a.pdf", some "policy", some "HR", some "/docs/a.pdf", []⟩

/-- A source record of request B. -/
def recB : SourceDetail := ⟨some "b.pdf", some "circular", some "IT", some "/docs/b.pdf", []⟩

/-- Two source dicts equal on the 4-tuple citation key but differing in the
raw metadata payload (e.g. two chunks of the same file). -/
def chunkRec (page : String) : SourceDetail :=
  ⟨some "handbook.pdf", some "policy", some "HR", some "/docs/handbook.pdf", [("page", page)]⟩

/-- A chunk whose `type` metadata is `"policy"` while its `document_type`
metadata is `"guideline"`. -/
def docPolicyTyped : Doc :=
  ⟨"Travel reimbursement rules.", [("type", "policy"), ("document_type", "guideline")]⟩

/-- Two sample documents for ingestion. -/
def docOne : Doc := ⟨"First document body.", [("department", "HR")]⟩
def docTwo : Doc := ⟨"Second document body.", [("department", "IT")]⟩

/-! ## Claim theorems -/

/-- C1: the spec's design rule demands a fresh per-request QueryScope so that
draining scope A returns only what was recorded against A. The source instead
keeps a single module-global `_rag_sources` collector shared by every request:
with the interleaving reset(A); record(A,[recA]); reset(B); record(B,[recB]);
drain(A), request A's drain returns exactly request B's record (and A's own
record is lost) — the isolation property fails on the code. -/
theorem global_collector_breaks_request_isolation :
    runShared [(0, ScopeOp.reset), (0, ScopeOp.record [recA]),
               (1, ScopeOp.reset), (1, ScopeOp.record [recB]),
               (0, ScopeOp.drain)] []
      = [(0, [recB])] ∧ recA ≠ recB := by decide

/-- C3: with the index backend unavailable (`self.vectorstore is None`) the
ingest call does not fail with IndexUnavailable; it fabricates placeholder
identifiers `mock_id_i`, one per document, indistinguishable from a successful
ingest — contradicting the claimed hard-failure policy. -/
theorem add_documents_fabricates_mock_ids :
    VectorStore.add_documents none [docOne, docTwo] none = ["mock_id_0", "mock_id_1"]
    ∧ ∀ (documents : List Doc) (md : Option Metadata),
        (VectorStore.add_documents none documents md).length = documents.length := by
  refine ⟨by decide, ?_⟩
  intro documents md
  simp [VectorStore.add_documents]

/-- C4: for a path with an unsupported extension the ingest call raises
`ValueError` internally but its own catch-all swallows the error and returns a
fabricated one-element identifier list `error_mock_id_{hash(path)}` — for any
backend, loader environment and hash function — instead of failing with
UnsupportedFormat and returning no identifiers as the claim states. -/
theorem load_and_add_file_swallows_unsupported_format :
    ∀ (backend : Option IndexBackend) (env : LoaderEnv) (pyHash : String → Int)
      (md : Option Metadata),
      VectorStore.load_and_add_file backend env pyHash "notes.xyz" md
        = ["error_mock_id_" ++ toString (pyHash "notes.xyz")] := by
  intro backend env pyHash md
  have h1 : pyEndsWith "notes.xyz" ".pdf" = false := by decide
  have h2 : pyEndsWith "notes.xyz" ".txt" = false := by decide
  have h3 : pyEndsWith "notes.xyz" ".docx" = false := by decide
  have h4 : pyEndsWith "notes.xyz" ".doc" = false := by decide
  simp [VectorStore.load_and_add_file, h1, h2, h3, h4]

/-- C8: for every scope state reachable by a sequence of record calls, drain
returns the accumulated records (in accumulation order) and leaves the scope
empty, so a second drain with no intervening record returns the empty list. -/
theorem drain_empties_scope :
    ∀ (batches : List (List SourceDetail)),
      (get_and_clear_rag_sources (batches.foldl (fun st b => track_sources b st) [])).1
          = batches.foldl (fun st b => track_sources b st) []
      ∧ (get_and_clear_rag_sources (batches.foldl (fun st b => track_sources b st) [])).2 = []
      ∧ (get_and_clear_rag_sources
            (get_and_clear_rag_sources
              (batches.foldl (fun st b => track_sources b st) [])).2).1 = [] := by
  intro batches
  exact ⟨rfl, rfl, rfl⟩

/-- C10: the response returned by `ORINAgent.query` (text, sources, success
flag, tools used) is identical whatever the outcome of the chat-history write
(failures are caught and swallowed), and a history write is attempted exactly
when the agent invocation succeeded and the user context holds a truthy
user_id — in particular, never without a user_id. -/
theorem query_history_write_gating_and_harmless :
    ∀ (uid : Option String) (agentResult : Except String (String × List String))
      (rag : List SourceDetail) (o1 o2 : WriteOutcome),
      (ORINAgent.query uid agentResult rag o1).1 = (ORINAgent.query uid agentResult rag o2).1
      ∧ ((ORINAgent.query uid agentResult rag o1).2 = true
          ↔ (pyTruthy uid = true ∧ agentResult.isOk = true)) := by
  intro uid agentResult rag o1 o2
  cases agentResult with
  | error e => simp [ORINAgent.query, Except.isOk, Except.toBool]
  | ok p =>
      cases p with
      | mk t steps => simp [ORINAgent.query, Except.isOk, Except.toBool]

/-- C2 counterexample: a chunk whose `type` metadata is `"policy"` but whose
`document_type` metadata is `"guideline"` is returned by a document search
constrained by document_type `"policy"` — the search does not constrain the
metadata key `document_type`, so the claim's exact-match contract on the key
of the same name is false on the code. -/
theorem document_type_filter_counterexample :
    ¬ (∀ d ∈ DocumentManager.search_documents (some [docPolicyTyped]) 3 (some "policy") none none,
        mget d.metadata "document_type" = some "policy") := by decide

/-- C5 counterexample: two source dicts equal on the 4-tuple dedup key but
differing in the raw metadata payload; after recording the first, the key is
present in the scope, yet recording the second still appends it — the claimed
"appended only if the dedup key is not already present" fails on the code,
whose cross-call dedup compares whole dicts. -/
theorem record_dedup_key_counterexample :
    dedupKey (chunkRec "2") ∈ (track_sources [chunkRec "1"] []).map dedupKey
    ∧ chunkRec "2" ∈ track_sources [chunkRec "2"] (track_sources [chunkRec "1"] []) := by decide

lemma filter_entry_of_mem {store : List Doc} {k : Nat} {fd : Metadata} {d : Doc}
    (h : d ∈ VectorStore.similarity_search (some store) k (some fd)) :
    ∀ kv ∈ fd, mget d.metadata kv.1 = some kv.2 := by
  intro kv hkv
  simp only [VectorStore.similarity_search] at h
  have h2 : d ∈ store.filter (fun x => satisfiesFilter fd x.metadata) :=
    List.mem_of_mem_take h
  have h3 := (List.mem_filter.mp h2).2
  simp only [satisfiesFilter, List.all_eq_true] at h3
  have h4 := h3 kv hkv
  simpa using h4

lemma mget_eq_of_truthy {md : Metadata} {key : String} {v : Option String}
    (hv : pyTruthy v = true) (h : mget md key = some (v.getD "")) :
    mget md key = v := by
  cases v with
  | none => simp [pyTruthy] at hv
  | some s => simpa using h

/-- C2 amended: each present recognized selector is applied as an exact-match
constraint — `department` and `user_id` on the metadata keys of the same name,
but `document_type` on the metadata key `type` — and absent selectors impose
no constraint (the whole ranked corpus is returned up to k). -/
theorem search_documents_exact_match_on_mapped_keys
    (store : List Doc) (k : Nat) (document_type department user_id : Option String)
    (d : Doc)
    (hd : d ∈ DocumentManager.search_documents (some store) k document_type department user_id) :
    (pyTruthy document_type = true → mget d.metadata "type" = document_type)
    ∧ (pyTruthy department = true → mget d.metadata "department" = department)
    ∧ (pyTruthy user_id = true → mget d.metadata "user_id" = user_id)
    ∧ DocumentManager.search_documents (some store) k none none none = store.take k := by
  simp only [DocumentManager.search_documents] at hd
  refine ⟨?_, ?_, ?_, ?_⟩
  · intro ht
    simp only [ht] at hd
    simp at hd
    have := filter_entry_of_mem hd ("type", document_type.getD "") (by simp)
    exact mget_eq_of_truthy ht this
  · intro ht
    cases hdt : pyTruthy document_type <;>
      · simp only [ht, hdt] at hd
        simp at hd
        have := filter_entry_of_mem hd ("department", department.getD "") (by simp)
        exact mget_eq_of_truthy ht this
  · intro ht
    cases hdt : pyTruthy document_type <;> cases hdep : pyTruthy department <;>
      · simp only [ht, hdt, hdep] at hd
        simp at hd
        have := filter_entry_of_mem hd ("user_id", user_id.getD "") (by simp)
        exact mget_eq_of_truthy ht this
  · simp [DocumentManager.search_documents, pyTruthy, VectorStore.similarity_search]

/-- C2 witness: the amended theorem applied to the concrete one-chunk corpus
of the counterexample. -/
theorem search_documents_exact_match_on_mapped_keys_witness :
    (pyTruthy (some "policy") = true → mget docPolicyTyped.metadata "type" = some "policy")
    ∧ (pyTruthy (none : Option String) = true → mget docPolicyTyped.metadata "department" = none)
    ∧ (pyTruthy (none : Option String) = true → mget docPolicyTyped.metadata "user_id" = none)
    ∧ DocumentManager.search_documents (some [docPolicyTyped]) 3 none none none
        = [docPolicyTyped].take 3 :=
  search_documents_exact_match_on_mapped_keys [docPolicyTyped] 3 (some "policy") none none
    docPolicyTyped (by decide)

lemma uniqueSources_keys_fresh :
    ∀ (l : List SourceDetail) (seen : List Key4),
      (∀ d ∈ uniqueSources l seen, dedupKey d ∉ seen)
      ∧ (uniqueSources l seen).Pairwise (fun a b => dedupKey a ≠ dedupKey b) := by
  intro l
  induction l with
  | nil => intro seen; simp [uniqueSources]
  | cons d rest ih =>
      intro seen
      simp only [uniqueSources]
      split
      · exact ih seen
      · rename_i hcond
        have hnotseen : dedupKey d ∉ seen := by
          intro hmem
          exact hcond (by simp [hmem])
        have ihs := ih (dedupKey d :: seen)
        constructor
        · intro x hx
          rcases List.mem_cons.mp hx with hx | hx
          · subst hx; exact hnotseen
          · have := ihs.1 x hx
            intro hs
            exact this (List.mem_cons_of_mem _ hs)
        · refine List.Pairwise.cons ?_ ihs.2
          intro x hx
          have := ihs.1 x hx
          intro heq
          exact this (heq ▸ List.mem_cons_self _ _)

lemma append_rag_sources_eq :
    ∀ (new st : List SourceDetail),
      new.Pairwise (fun a b => dedupKey a ≠ dedupKey b) →
      append_rag_sources new st = st ++ new.filter (fun r => decide (r ∉ st)) := by
  intro new
  induction new with
  | nil => intro st _; simp [append_rag_sources]
  | cons u us ih =>
      intro st hp
      have hus := List.Pairwise.of_cons hp
      have hhead : ∀ b ∈ us, dedupKey u ≠ dedupKey b :=
        fun b hb => List.rel_of_pairwise_cons hp hb
      have hstep : append_rag_sources (u :: us) st
          = append_rag_sources us (if u ∈ st then st else st ++ [u]) := by
        simp [append_rag_sources, List.foldl_cons]
      by_cases hu : u ∈ st
      · rw [hstep, if_pos hu, ih st hus]
        have : decide (u ∉ st) = false := by simp [hu]
        simp [List.filter_cons, this, hu]
      · rw [hstep, if_neg hu, ih (st ++ [u]) hus]
        have hpu : decide (u ∉ st) = true := by simp [hu]
        have hfilter : us.filter (fun r => decide (r ∉ st ++ [u]))
            = us.filter (fun r => decide (r ∉ st)) := by
          apply List.filter_congr
          intro x hx
          apply decide_eq_decide.mpr
          have hxu : x ≠ u := by
            intro hxeq
            exact hhead x hx (by rw [hxeq])
          constructor
          · intro hnot hmem
            exact hnot (List.mem_append_left _ hmem)
          · intro hnot hmem
            rcases List.mem_append.mp hmem with hmem | hmem
            · exact hnot hmem
            · exact hxu (List.mem_singleton.mp hmem)
        rw [hfilter]
        simp [List.filter_cons, hpu, List.append_assoc, hu]

/-- C5 amended: a record call appends exactly the batch's first-per-dedup-key
records with truthy filenames that are not already wholly present in the scope
— cross-call dedup is by full record equality (metadata payload included), not
by the 4-tuple key, so a record whose key is present under a record differing
in any other field is appended again. -/
theorem record_appends_key_dedup_batch_minus_exact_duplicates :
    ∀ (batch st : List SourceDetail),
      track_sources batch st
        = st ++ (uniqueSources batch []).filter (fun r => decide (r ∉ st))
      ∧ ∀ (r : SourceDetail),
          r ∈ track_sources batch st
            ↔ (r ∈ st ∨ (r ∈ uniqueSources batch [] ∧ r ∉ st)) := by
  intro batch st
  have heq := append_rag_sources_eq (uniqueSources batch []) st
    (uniqueSources_keys_fresh batch []).2
  constructor
  · exact heq
  · intro r
    rw [track_sources, heq]
    simp [List.mem_filter]

lemma formatLoop_spec :
    ∀ (l : List SourceDetail) (seen : List SKey),
      ((formatLoop l seen).1.Pairwise (fun a b => formatKey a ≠ formatKey b))
      ∧ (∀ f ∈ (formatLoop l seen).1, formatKey f ∉ seen)
      ∧ List.Sublist (formatLoop l seen).1 (l.map projFmt) := by
  intro l
  induction l with
  | nil => intro seen; simp [formatLoop]
  | cons s rest ih =>
      intro seen
      simp only [formatLoop]
      split
      · rename_i hcond
        refine ⟨(ih seen).1, (ih seen).2.1, ?_⟩
        exact List.Sublist.cons _ (ih seen).2.2
      · rename_i hcond
        have hnotseen : fKey s ∉ seen := by
          intro hmem
          exact hcond (by simp [hmem])
        have ihs := ih (fKey s :: seen)
        have hkey : formatKey (projFmt s) = fKey s := rfl
        refine ⟨?_, ?_, ?_⟩
        · refine List.Pairwise.cons ?_ ihs.1
          intro x hx
          have := ihs.2.1 x hx
          rw [hkey]
          intro heq
          exact this (heq ▸ List.mem_cons_self _ _)
        · intro f hf
          rcases List.mem_cons.mp hf with hf | hf
          · subst hf; rw [hkey]; exact hnotseen
          · have := ihs.2.1 f hf
            intro hmem
            exact this (List.mem_cons_of_mem _ hmem)
        · exact List.Sublist.cons₂ _ ihs.2.2

lemma legacyLoop_spec :
    ∀ (entries : List String) (seen : List SKey),
      ((legacyLoop entries seen).Pairwise (fun a b => formatKey a ≠ formatKey b))
      ∧ (∀ f ∈ legacyLoop entries seen, formatKey f ∉ seen)
      ∧ List.Sublist (legacyLoop entries seen)
          (entries.map (fun e => (⟨e, none, none, none⟩ : FormattedSource))) := by
  intro entries
  induction entries with
  | nil => intro seen; simp [legacyLoop]
  | cons e rest ih =>
      intro seen
      simp only [legacyLoop]
      split
      · rename_i hcond
        refine ⟨(ih seen).1, (ih seen).2.1, ?_⟩
        exact List.Sublist.cons _ (ih seen).2.2
      · rename_i hcond
        have hnotseen : ((e, none, none, none) : SKey) ∉ seen := hcond
        have ihs := ih (((e, none, none, none) : SKey) :: seen)
        have hkey : formatKey (⟨e, none, none, none⟩ : FormattedSource)
            = ((e, none, none, none) : SKey) := rfl
        refine ⟨?_, ?_, ?_⟩
        · refine List.Pairwise.cons ?_ ihs.1
          intro x hx
          have := ihs.2.1 x hx
          rw [hkey]
          intro heq
          exact this (heq ▸ List.mem_cons_self _ _)
        · intro f hf
          rcases List.mem_cons.mp hf with hf | hf
          · subst hf; rw [hkey]; exact hnotseen
          · have := ihs.2.1 f hf
            intro hmem
            exact this (List.mem_cons_of_mem _ hmem)
        · exact List.Sublist.cons₂ _ ihs.2.2

lemma formatLoop_nil_seen :
    ∀ (l : List SourceDetail) (seen : List SKey),
      (formatLoop l seen).1 = [] → (formatLoop l seen).2 = seen := by
  intro l
  induction l with
  | nil => intro seen _; simp [formatLoop]
  | cons s rest ih =>
      intro seen h
      simp only [formatLoop] at h ⊢
      split at h <;> rename_i hc
      · rw [if_pos hc]
        exact ih seen h
      · simp at h

lemma skey_notmem_cons_bool (a key : SKey) (seen : List SKey) :
    ((!(a == key)) && decide (a ∉ seen)) = decide (a ∉ key :: seen) := by
  by_cases h1 : a = key
  · simp [h1]
  · by_cases h2 : a ∈ seen
    · simp [h1, h2]
    · simp [h1, h2]

lemma formatLoop_eq_dedup :
    ∀ (l : List SourceDetail) (seen : List SKey),
      (formatLoop l seen).1
        = firstSeenKeyDedup
            (((l.map projFmt).filter (fun f => !(f.filename == "Unknown source"))).filter
              (fun f => decide (formatKey f ∉ seen))) := by
  intro l
  induction l with
  | nil => intro seen; simp [formatLoop, firstSeenKeyDedup]
  | cons s rest ih =>
      intro seen
      have hpfname : (projFmt s).filename = fmtFilename s := rfl
      have hpfkey : formatKey (projFmt s) = fKey s := rfl
      by_cases hsent : fmtFilename s = "Unknown source"
      · have hskip : (formatLoop (s :: rest) seen).1 = (formatLoop rest seen).1 := by
          simp only [formatLoop]
          rw [if_pos (by simp [hsent])]
        have hdrop : ((s :: rest).map projFmt).filter (fun f => !(f.filename == "Unknown source"))
            = (rest.map projFmt).filter (fun f => !(f.filename == "Unknown source")) := by
          simp only [List.map_cons, List.filter_cons]
          rw [hpfname]
          simp [hsent]
        rw [hskip, hdrop, ih seen]
      · have hvalid : ((s :: rest).map projFmt).filter (fun f => !(f.filename == "Unknown source"))
            = projFmt s :: (rest.map projFmt).filter (fun f => !(f.filename == "Unknown source")) := by
          simp only [List.map_cons, List.filter_cons]
          rw [hpfname]
          simp [hsent]
        by_cases hseen : fKey s ∈ seen
        · have hskip : (formatLoop (s :: rest) seen).1 = (formatLoop rest seen).1 := by
            simp only [formatLoop]
            rw [if_pos (by simp [hseen])]
          have hdrop2 : (decide (formatKey (projFmt s) ∉ seen)) = false := by
            rw [hpfkey]; simp [hseen]
          rw [hskip, hvalid, ih seen]
          simp only [List.filter_cons, hdrop2]
          rfl
        · have hkeep : (formatLoop (s :: rest) seen).1
              = projFmt s :: (formatLoop rest (fKey s :: seen)).1 := by
            simp only [formatLoop]
            rw [if_neg (by simp [hseen, hsent])]
          have hkeep2 : (decide (formatKey (projFmt s) ∉ seen)) = true := by
            rw [hpfkey]; simp [hseen]
          rw [hkeep, hvalid, ih (fKey s :: seen)]
          simp only [List.filter_cons, hkeep2]
          rw [if_pos trivial]
          rw [firstSeenKeyDedup]
          congr 1
          rw [List.filter_filter, List.filter_filter, List.filter_filter]
          apply congrArg
          apply List.filter_congr
          intro a _
          rw [hpfkey, skey_notmem_cons_bool]

lemma legacyLoop_eq_dedup :
    ∀ (entries : List String) (seen : List SKey),
      legacyLoop entries seen
        = firstSeenKeyDedup
            (((entries.map (fun e => (⟨e, none, none, none⟩ : FormattedSource)))).filter
              (fun f => decide (formatKey f ∉ seen))) := by
  intro entries
  induction entries with
  | nil => intro seen; simp [legacyLoop, firstSeenKeyDedup]
  | cons e rest ih =>
      intro seen
      have hk : formatKey (⟨e, none, none, none⟩ : FormattedSource)
          = ((e, none, none, none) : SKey) := rfl
      by_cases hseen : ((e, none, none, none) : SKey) ∈ seen
      · have hskip : legacyLoop (e :: rest) seen = legacyLoop rest seen := by
          simp only [legacyLoop]
          rw [if_pos hseen]
        have hdrop : (decide (formatKey (⟨e, none, none, none⟩ : FormattedSource) ∉ seen))
            = false := by
          rw [hk]; simp [hseen]
        rw [hskip, ih seen]
        simp only [List.map_cons, List.filter_cons, hdrop]
        rfl
      · have hkeep : legacyLoop (e :: rest) seen
            = (⟨e, none, none, none⟩ : FormattedSource)
                :: legacyLoop rest (((e, none, none, none) : SKey) :: seen) := by
          simp only [legacyLoop]
          rw [if_neg hseen]
        have hkeep2 : (decide (formatKey (⟨e, none, none, none⟩ : FormattedSource) ∉ seen))
            = true := by
          rw [hk]; simp [hseen]
        rw [hkeep, ih (((e, none, none, none) : SKey) :: seen)]
        simp only [List.map_cons, List.filter_cons, hkeep2]
        rw [if_pos trivial]
        rw [firstSeenKeyDedup]
        congr 1
        rw [List.filter_filter]
        apply congrArg
        apply List.filter_congr
        intro a _
        rw [hk]
        exact (skey_notmem_cons_bool (formatKey a) ((e, none, none, none) : SKey) seen).symm

/-- A concrete first-seen-order check in the shape of the spec's §8 example:
a key stream [A, B, A] drains to [A, B], in that order. -/
lemma format_sources_first_seen_example :
    format_sources [recA, recB, recA] "" = [projFmt recA, projFmt recB] := by decide

/-- C6: the source list handed back to the caller never contains two entries
with an equal dedup key, and it equals exactly the first-seen deduplication
(`firstSeenKeyDedup`: keep each key's first occurrence, delete later ones) of
the stream it was built from — the structured sources with the
`"Unknown source"` sentinel filtered out when that deduplication is
non-empty, otherwise the legacy entries — so the order is first-seen order. -/
theorem format_sources_no_duplicate_keys_first_seen_order :
    ∀ (rag : List SourceDetail) (response : String),
      (format_sources rag response).Pairwise (fun a b => formatKey a ≠ formatKey b)
      ∧ format_sources rag response
          = (if (firstSeenKeyDedup ((rag.map projFmt).filter
                  (fun f => !(f.filename == "Unknown source")))).isEmpty
             then firstSeenKeyDedup ((extract_sources response).map
                  (fun e => (⟨e, none, none, none⟩ : FormattedSource)))
             else firstSeenKeyDedup ((rag.map projFmt).filter
                  (fun f => !(f.filename == "Unknown source")))) := by
  intro rag response
  have hfmt : (formatLoop rag []).1
      = firstSeenKeyDedup ((rag.map projFmt).filter
          (fun f => !(f.filename == "Unknown source"))) := by
    have h0 : ((rag.map projFmt).filter (fun f => !(f.filename == "Unknown source"))).filter
        (fun f => decide (formatKey f ∉ ([] : List SKey)))
        = (rag.map projFmt).filter (fun f => !(f.filename == "Unknown source")) := by
      apply List.filter_eq_self.mpr
      intro a _
      exact decide_eq_true (List.not_mem_nil _)
    exact (formatLoop_eq_dedup rag []).trans (congrArg firstSeenKeyDedup h0)
  constructor
  · simp only [format_sources]
    split
    · exact (formatLoop_spec rag []).1
    · rename_i hcond
      have hnil : (formatLoop rag []).1 = [] := by
        rcases h : (formatLoop rag []).1 with _ | _
        · rfl
        · rw [h] at hcond; simp at hcond
      rw [hnil]
      simp only [List.nil_append]
      exact (legacyLoop_spec (extract_sources response) (formatLoop rag []).2).1
  · simp only [format_sources]
    split
    · rename_i hcond
      have hne : ((formatLoop rag []).1.isEmpty) = false := by
        simpa using hcond
      rw [hfmt] at hne
      rw [if_neg (by simp [hne])]
      exact hfmt
    · rename_i hcond
      have hnil : (formatLoop rag []).1 = [] := by
        rcases h : (formatLoop rag []).1 with _ | _
        · rfl
        · rw [h] at hcond; simp at hcond
      have hseen : (formatLoop rag []).2 = [] := formatLoop_nil_seen rag [] hnil
      have hempty : (firstSeenKeyDedup ((rag.map projFmt).filter
          (fun f => !(f.filename == "Unknown source")))).isEmpty = true := by
        rw [← hfmt, hnil]
        rfl
      rw [if_pos hempty, hnil, hseen]
      simp only [List.nil_append]
      have h0 : ((extract_sources response).map
            (fun e => (⟨e, none, none, none⟩ : FormattedSource))).filter
          (fun f => decide (formatKey f ∉ ([] : List SKey)))
          = (extract_sources response).map
            (fun e => (⟨e, none, none, none⟩ : FormattedSource)) := by
        apply List.filter_eq_self.mpr
        intro a _
        exact decide_eq_true (List.not_mem_nil _)
      exact (legacyLoop_eq_dedup (extract_sources response) []).trans
        (congrArg firstSeenKeyDedup h0)

lemma formatLoop_all_valid :
    ∀ (l : List SourceDetail) (seen : List SKey),
      (∀ s ∈ l, pyTruthy s.filename = true ∧ s.filename ≠ some "Unknown source") →
      l.Pairwise (fun a b => fKey a ≠ fKey b) →
      (∀ s ∈ l, fKey s ∉ seen) →
      (formatLoop l seen).1 = l.map projFmt := by
  intro l
  induction l with
  | nil => intro seen _ _ _; simp [formatLoop]
  | cons s rest ih =>
      intro seen hvalid hpair hseen
      have hs := hvalid s (List.mem_cons_self _ _)
      have hfname : fmtFilename s ≠ "Unknown source" := by
        rcases hv : s.filename with _ | v
        · rw [hv] at hs; simp [pyTruthy] at hs
        · have h1 : pyTruthy (some v) = true := hv ▸ hs.1
          have : fmtFilename s = v := by
            simp [fmtFilename, hv, h1]
          rw [this]
          intro hveq
          exact hs.2 (by rw [hv, hveq])
      have hcond : ¬(fKey s ∈ seen ∨ fmtFilename s == "Unknown source") := by
        rintro (h | h)
        · exact hseen s (List.mem_cons_self _ _) h
        · exact hfname (by simpa using h)
      simp only [formatLoop]
      rw [if_neg (by simpa using hcond)]
      simp only [List.map_cons]
      congr 1
      apply ih (fKey s :: seen)
      · intro x hx; exact hvalid x (List.mem_cons_of_mem _ hx)
      · exact List.Pairwise.of_cons hpair
      · intro x hx
        intro hmem
        rcases List.mem_cons.mp hmem with hmem | hmem
        · exact List.rel_of_pairwise_cons hpair hx hmem.symm
        · exact hseen x (List.mem_cons_of_mem _ hx) hmem

lemma legacyLoop_fields :
    ∀ (entries : List String) (seen : List SKey) (f : FormattedSource),
      f ∈ legacyLoop entries seen →
      f.document_type = none ∧ f.department = none ∧ f.source = none
      ∧ f.filename ∈ entries := by
  intro entries
  induction entries with
  | nil => intro seen f hf; simp [legacyLoop] at hf
  | cons e rest ih =>
      intro seen f hf
      simp only [legacyLoop] at hf
      split at hf
      · have := ih seen f hf
        exact ⟨this.1, this.2.1, this.2.2.1, List.mem_cons_of_mem _ this.2.2.2⟩
      · rcases List.mem_cons.mp hf with hf | hf
        · subst hf
          exact ⟨rfl, rfl, rfl, List.mem_cons_self _ _⟩
        · have := ih _ f hf
          exact ⟨this.1, this.2.1, this.2.2.1, List.mem_cons_of_mem _ this.2.2.2⟩

/-- C7: when the drained structured source list is non-empty (all entries with
a non-empty filename distinct from the sentinel, keys pairwise distinct as one
scope yields), the returned sources are exactly the structured records — for
every answer text, so legacy-marker parsing is never invoked; and only when
the structured list is empty does the result consist of filename-only fallback
records (all other fields null) parsed out of the legacy block. -/
theorem structured_sources_shadow_legacy_parsing :
    ∀ (rag : List SourceDetail) (response : String),
      (rag ≠ [] →
        (∀ s ∈ rag, pyTruthy s.filename = true ∧ s.filename ≠ some "Unknown source") →
        rag.Pairwise (fun a b => fKey a ≠ fKey b) →
        format_sources rag response = rag.map projFmt)
      ∧ (rag = [] →
          ∀ f ∈ format_sources rag response,
            f.document_type = none ∧ f.department = none ∧ f.source = none
            ∧ f.filename ∈ extract_sources response) := by
  intro rag response
  constructor
  · intro hne hvalid hpair
    have hloop : (formatLoop rag []).1 = rag.map projFmt :=
      formatLoop_all_valid rag [] hvalid hpair (by simp)
    have hnonempty : ((formatLoop rag []).1.isEmpty) = false := by
      rw [hloop]
      rcases rag with _ | _
      · exact absurd rfl hne
      · simp
    simp only [format_sources]
    rw [if_pos (by simp [hnonempty])]
    exact hloop
  · intro hragnil f hf
    subst hragnil
    simp only [format_sources, formatLoop] at hf
    simp at hf
    exact legacyLoop_fields _ _ f hf

/-- C7 witness: with one structured source the legacy block of the answer text
is ignored; with no structured sources the legacy block is parsed into a
filename-only record. -/
theorem structured_sources_shadow_legacy_parsing_witness :
    format_sources [recA] "Hi --- SOURCES ---\n• old.pdf" = [projFmt recA]
    ∧ ((⟨"old.pdf", none, none, none⟩ : FormattedSource).document_type = none
        ∧ (⟨"old.pdf", none, none, none⟩ : FormattedSource).department = none
        ∧ (⟨"old.pdf", none, none, none⟩ : FormattedSource).source = none
        ∧ (⟨"old.pdf", none, none, none⟩ : FormattedSource).filename
            ∈ extract_sources "Hi --- SOURCES ---\n• old.pdf") :=
  ⟨(structured_sources_shadow_legacy_parsing [recA] "Hi --- SOURCES ---\n• old.pdf").1
      (by decide) (by decide) (by decide),
   (structured_sources_shadow_legacy_parsing [] "Hi --- SOURCES ---\n• old.pdf").2
      rfl ⟨"old.pdf", none, none, none⟩ (by decide)⟩

lemma orchestratorGo_counter_le (model : List String → ModelStep)
    (dispatch : String → String) :
    ∀ (remaining iter : Nat) (convo used : List String),
      (orchestratorGo model dispatch remaining iter convo used).2 ≤ iter + remaining := by
  intro remaining
  induction remaining with
  | zero => intro iter convo used; simp [orchestratorGo]
  | succ n ih =>
      intro iter convo used
      simp only [orchestratorGo]
      cases hm : model convo with
      | finalAnswer t => simp
      | toolCall name =>
          have := ih (iter + 1) (convo ++ [dispatch name]) (used ++ [name])
          dsimp only
          omega

lemma orchestratorGo_never_final (model : List String → ModelStep)
    (dispatch : String → String)
    (h : ∀ convo, (model convo).isToolCall = true) :
    ∀ (remaining iter : Nat) (convo used : List String),
      ((orchestratorGo model dispatch remaining iter convo used).1).answer = stopMessage
      ∧ ((orchestratorGo model dispatch remaining iter convo used).1).tools_used.length
          = used.length + remaining
      ∧ (orchestratorGo model dispatch remaining iter convo used).2 = iter + remaining := by
  intro remaining
  induction remaining with
  | zero => intro iter convo used; simp [orchestratorGo]
  | succ n ih =>
      intro iter convo used
      simp only [orchestratorGo]
      cases hm : model convo with
      | finalAnswer t =>
          have := h convo
          rw [hm] at this
          simp [ModelStep.isToolCall] at this
      | toolCall name =>
          have := ih (iter + 1) (convo ++ [dispatch name]) (used ++ [name])
          refine ⟨this.1, ?_, ?_⟩
          · rw [this.2.1]; simp; omega
          · rw [this.2.2]; omega

/-- C9: the orchestration loop's iteration counter never exceeds the
configured cap, and with the source's configured cap 3 a model that never
emits a final answer terminates after exactly 3 tool dispatches, with the
non-empty forced-stop partial answer and exactly 3 recorded tool uses. -/
theorem orchestrator_respects_iteration_cap (model : List String → ModelStep)
    (dispatch : String → String) (user_input : String)
    (h : ∀ convo, (model convo).isToolCall = true) :
    ((runOrchestrator model dispatch 3 user_input).1).tools_used.length = 3
    ∧ ((runOrchestrator model dispatch 3 user_input).1).answer ≠ ""
    ∧ (runOrchestrator model dispatch 3 user_input).2 = 3
    ∧ ∀ (m2 : List String → ModelStep) (d2 : String → String) (cap : Nat) (inp : String),
        (runOrchestrator m2 d2 cap inp).2 ≤ cap := by
  have hnf := orchestratorGo_never_final model dispatch h 3 0 [user_input] []
  refine ⟨?_, ?_, ?_, ?_⟩
  · simpa [runOrchestrator] using hnf.2.1
  · rw [runOrchestrator, hnf.1]
    decide
  · simpa [runOrchestrator] using hnf.2.2
  · intro m2 d2 cap inp
    simpa [runOrchestrator] using orchestratorGo_counter_le m2 d2 cap 0 [inp] []

/-- C9 witness: a model that always requests the document-search tool against
the cap-3 orchestrator. -/
theorem orchestrator_respects_iteration_cap_witness :
    ((runOrchestrator (fun _ => ModelStep.toolCall "search_documents")
        (fun _ => "No relevant documents found for your query.") 3
        "What is the leave policy?").1).tools_used.length = 3
    ∧ ((runOrchestrator (fun _ => ModelStep.toolCall "search_documents")
        (fun _ => "No relevant documents found for your query.") 3
        "What is the leave policy?").1).answer ≠ ""
    ∧ (runOrchestrator (fun _ => ModelStep.toolCall "search_documents")
        (fun _ => "No relevant documents found for your query.") 3
        "What is the leave policy?").2 = 3
    ∧ ∀ (m2 : List String → ModelStep) (d2 : String → String) (cap : Nat) (inp : String),
        (runOrchestrator m2 d2 cap inp).2 ≤ cap :=
  orchestrator_respects_iteration_cap _ _ _ (fun _ => rfl)
